import Mathlib

/-!
Shallow embedding of `gemini_2_speakers_tts.py` (Gemini TTS conversation
generator).  Python strings are modelled as `List Char` (`Str`); the Python
string helpers used by the source (`strip`, `lower`, `startswith`,
`split(sep)`, `split(sep, 1)`, `splitlines`, substring containment,
`int(...)`) are defined below for the ASCII fragment exercised by the
program.  Machine integers are modelled as `Int`/`Nat`; `struct.pack`
range errors are modelled with `Option`.
-/

set_option maxRecDepth 10000

abbrev Str := List Char

/-- Convert a Lean string literal to the `List Char` model. -/
def s2l (s : String) : Str := s.data

/-- Whitespace characters stripped by Python `str.strip()` (ASCII fragment). -/
def isPySpace (c : Char) : Bool :=
  c = ' ' || c = '\t' || c = '\n' || c = '\x0d' || c = '\x0b' || c = '\x0c'

/-- Python `str.strip()`. -/
def pyStrip (s : Str) : Str :=
  ((s.dropWhile isPySpace).reverse.dropWhile isPySpace).reverse

/-- Python `str.lower()` on one character (ASCII fragment), written as an
explicit table. -/
def lowerChar : Char → Char
  | 'A' => 'a' | 'B' => 'b' | 'C' => 'c' | 'D' => 'd' | 'E' => 'e' | 'F' => 'f'
  | 'G' => 'g' | 'H' => 'h' | 'I' => 'i' | 'J' => 'j' | 'K' => 'k' | 'L' => 'l'
  | 'M' => 'm' | 'N' => 'n' | 'O' => 'o' | 'P' => 'p' | 'Q' => 'q' | 'R' => 'r'
  | 'S' => 's' | 'T' => 't' | 'U' => 'u' | 'V' => 'v' | 'W' => 'w' | 'X' => 'x'
  | 'Y' => 'y' | 'Z' => 'z'
  | c => c

/-- Python `str.lower()`. -/
def pyLowerS (s : Str) : Str := s.map lowerChar

/-- Python `s.startswith(p)`: first argument the string, second the candidate
leading substring. -/
def pyStartsWith : Str → Str → Bool
  | _, [] => true
  | [], _ :: _ => false
  | c :: s, d :: p => c = d && pyStartsWith s p

/-- Python `c in s` for a single character. -/
def pyContainsChar (s : Str) (c : Char) : Bool := s.contains c

/-- Python `sub in s` substring containment. -/
def pyContainsStr : Str → Str → Bool
  | sub, [] => pyStartsWith [] sub
  | sub, s@(_ :: t) => pyStartsWith s sub || pyContainsStr sub t

/-- Python `s.split(sep, 1)`: the part before the first occurrence of `sep`,
and (when `sep` occurs) the part after it. -/
def pySplitOnce (sep : Char) : Str → Str × Option Str
  | [] => ([], none)
  | c :: rest =>
    if c = sep then ([], some rest)
    else
      let r := pySplitOnce sep rest
      (c :: r.1, r.2)

/-- Python `s.split(sep)` (no maxsplit): `"".split(sep) = [""]`. -/
def pySplitChar (sep : Char) : Str → List Str
  | [] => [[]]
  | c :: rest =>
    if c = sep then [] :: pySplitChar sep rest
    else
      match pySplitChar sep rest with
      | [] => [[c]]
      | l :: ls => (c :: l) :: ls

/-- Line-break characters recognised by Python `str.splitlines()`
(ASCII fragment plus `\r\n` handled in the splitter). -/
def isLineBreak (c : Char) : Bool :=
  c = '\n' || c = '\x0d' || c = '\x0b' || c = '\x0c' ||
  c = '\x1c' || c = '\x1d' || c = '\x1e' || c = '\x85'

/-- Worker for `pySplitlines`; the accumulator holds the current line
reversed. -/
def splitlinesGo : Str → Str → List Str
  | [], acc => if acc = [] then [] else [acc.reverse]
  | '\x0d' :: '\n' :: rest, acc => acc.reverse :: splitlinesGo rest []
  | c :: rest, acc =>
    if isLineBreak c then acc.reverse :: splitlinesGo rest []
    else splitlinesGo rest (c :: acc)

/-- Python `str.splitlines()`: no trailing empty line for a trailing
terminator, and `"".splitlines() = []`. -/
def pySplitlines (s : Str) : List Str := splitlinesGo s []

/-- Python `s.replace(old, new)` for single-character `old`. -/
def pyReplaceChar (s : Str) (old new : Char) : Str :=
  s.map (fun c => if c = old then new else c)

def isDigitChar (c : Char) : Bool := '0' ≤ c && c ≤ '9'

/-- No two adjacent underscores. -/
def noDoubleUnderscore : Str → Bool
  | '_' :: '_' :: _ => false
  | _ :: rest => noDoubleUnderscore rest
  | [] => true

/-- Digit-string validity for Python `int()`: nonempty, digits with single
underscores strictly between digits. -/
def validDigitStr (s : Str) : Bool :=
  s ≠ [] &&
  s.all (fun c => isDigitChar c || c = '_') &&
  (match s with | [] => false | c :: _ => isDigitChar c) &&
  (match s.getLast? with | none => false | some c => isDigitChar c) &&
  noDoubleUnderscore s

/-- Numeric value of a valid digit string (underscores skipped). -/
def digitsVal (s : Str) : Nat :=
  s.foldl (fun n c => if c = '_' then n else n * 10 + (c.toNat - 48)) 0

/-- Python `int(str)`: optional surrounding whitespace, optional sign,
decimal digits with single interior underscores; `none` models
`ValueError`. -/
def pyInt (s : Str) : Option Int :=
  match pyStrip s with
  | '+' :: rest => if validDigitStr rest then some (Int.ofNat (digitsVal rest)) else none
  | '-' :: rest => if validDigitStr rest then some (-(Int.ofNat (digitsVal rest))) else none
  | rest => if validDigitStr rest then some (Int.ofNat (digitsVal rest)) else none

/-! ## `extract_speakers` (source lines 12–31) -/

/-- Loop body of `extract_speakers`: `seen` is the ordered list of names
collected so far; returns as soon as two distinct names are found. -/
def extractGo : List Str → List Str → Option Str × Option Str
  | [], seen =>
    match seen with
    | [] => (none, none)
    | a :: _ => (some a, none)
  | line :: rest, seen =>
    if pyContainsChar line ':' then
      let name := pyStrip (pySplitOnce ':' line).1
      let seen1 := if name ≠ [] && !(seen.contains name) then seen ++ [name] else seen
      match seen1 with
      | [a, b] => (some a, some b)
      | _ => extractGo rest seen1
    else extractGo rest seen

/-- `extract_speakers`: first two distinct `Name:`-prefixed names. -/
def extract_speakers (text : Str) : Option Str × Option Str :=
  extractGo (pySplitlines text) []

/-- Full (non-early-stopping) collection of distinct names, following the
spec's description of the scan: for each colon-containing line take the
trimmed text before the first colon and append it when nonempty and new. -/
def specCollectNames : List Str → List Str → List Str
  | [], seen => seen
  | line :: rest, seen =>
    if pyContainsChar line ':' then
      let name := pyStrip (pySplitOnce ':' line).1
      let seen1 := if name ≠ [] && !(seen.contains name) then seen ++ [name] else seen
      specCollectNames rest seen1
    else specCollectNames rest seen

/-- All distinct speaker names of a dialogue, in order of first appearance. -/
def specSpeakerNames (text : Str) : List Str :=
  specCollectNames (pySplitlines text) []

/-- The first two entries of a name list, padded with `none` (spec §4.1). -/
def firstTwoPadded : List Str → Option Str × Option Str
  | [] => (none, none)
  | [a] => (some a, none)
  | a :: b :: _ => (some a, some b)

theorem specCollectNames_append (lines : List Str) (seen : List Str) :
    ∃ t, specCollectNames lines seen = seen ++ t := by
  induction lines generalizing seen with
  | nil => exact ⟨[], by simp [specCollectNames]⟩
  | cons line rest ih =>
    simp only [specCollectNames]
    by_cases h : pyContainsChar line ':' = true
    · simp only [h, if_true]
      by_cases h2 : (pyStrip (pySplitOnce ':' line).1 ≠ [] &&
          !(seen.contains (pyStrip (pySplitOnce ':' line).1))) = true
      · simp only [h2, if_true]
        obtain ⟨t, ht⟩ := ih (seen ++ [pyStrip (pySplitOnce ':' line).1])
        exact ⟨pyStrip (pySplitOnce ':' line).1 :: t, by rw [ht]; simp⟩
      · simp only [h2, if_false]
        exact ih seen
    · simp only [h, if_false]
      exact ih seen

theorem extractGo_eq_firstTwo (lines : List Str) (seen : List Str)
    (hlen : seen.length ≤ 1) :
    extractGo lines seen = firstTwoPadded (specCollectNames lines seen) := by
  induction lines generalizing seen with
  | nil =>
    cases seen with
    | nil => simp [extractGo, specCollectNames, firstTwoPadded]
    | cons a tl =>
      cases tl with
      | nil => simp [extractGo, specCollectNames, firstTwoPadded]
      | cons b tl2 => simp at hlen
  | cons line rest ih =>
    simp only [extractGo, specCollectNames]
    by_cases h : pyContainsChar line ':' = true
    · simp only [h, if_true]
      set name := pyStrip (pySplitOnce ':' line).1 with hname
      by_cases h2 : (name ≠ [] && !(seen.contains name)) = true
      · simp only [h2, if_true]
        -- seen grows by one element
        cases seen with
        | nil =>
          simp only [List.nil_append]
          exact ih [name] (by simp)
        | cons a tl =>
          cases tl with
          | nil =>
            -- seen1 = [a, name]: early return
            obtain ⟨t, ht⟩ := specCollectNames_append rest [a, name]
            simp only [List.cons_append, List.nil_append, ht, firstTwoPadded]
          | cons b tl2 => simp at hlen
      · simp only [h2, if_false]
        -- seen unchanged; seen has length ≤ 1 so the [a, b] pattern fails
        cases seen with
        | nil => exact ih [] (by simp)
        | cons a tl =>
          cases tl with
          | nil => exact ih [a] (by simp)
          | cons b tl2 => simp at hlen
    · simp only [h, if_false]
      exact ih seen hlen

/-- C5: `extract_speakers` scans lines top to bottom, takes the trimmed
substring before the first colon of each colon-containing line, collects
non-empty names not already seen, and returns the first two distinct names
in order of first appearance (stopping there), padding with `none` when
fewer than two are found; in particular one name gives `(name, none)` and
no colon-prefixed names gives `(none, none)`. -/
theorem c5_extract_speakers_spec :
    (∀ text : Str, extract_speakers text = firstTwoPadded (specSpeakerNames text)) ∧
    extract_speakers (s2l ("OnlyOne: hi")) = (some (s2l ("OnlyOne")), none) ∧
    extract_speakers (s2l ("no colons here")) = (none, none) ∧
    extract_speakers (s2l ("Alice: Hi\nBob: Hello\nAlice: Bye")) =
      (some (s2l ("Alice")), some (s2l ("Bob"))) :=
  ⟨fun text => extractGo_eq_firstTwo (pySplitlines text) [] (by simp),
   by decide, by decide, by decide⟩

/-! ## `parse_audio_mime_type` (source lines 325–341) -/

/-- The remainder after `param.split("=", 1)[1]`; `none` models the
(unreachable under the guard) `IndexError`, which the source catches. -/
def afterEq (param : Str) : Option Str := (pySplitOnce '=' param).2

/-- The remainder after `param.split("L", 1)[1]`. -/
def afterL (param : Str) : Option Str := (pySplitOnce 'L' param).2

/-- One iteration of the parameter loop of `parse_audio_mime_type`; the
state is `(bits_per_sample, rate)`. -/
def mimeParamStep (st : Int × Int) (param0 : Str) : Int × Int :=
  if pyStartsWith (pyLowerS (pyStrip param0)) (s2l ("rate=")) then
    match (afterEq (pyStrip param0)).bind pyInt with
    | some r => (st.1, r)
    | none => st
  else if pyContainsStr (s2l ("audio/L")) (pyStrip param0) then
    match (afterL (pyStrip param0)).bind pyInt with
    | some b => (b, st.2)
    | none => st
  else st

/-- `parse_audio_mime_type`: result as `(bits_per_sample, rate)` with
defaults `(16, 24000)`. -/
def parse_audio_mime_type (mime_type : Str) : Int × Int :=
  (pySplitChar ';' mime_type).foldl mimeParamStep (16, 24000)

/-- A segment is "recognised and parses" when it either rate-matches with a
parseable integer, or (not rate-matching) contains `audio/L` with a
parseable integer after the first `L`. -/
def segParses (param0 : Str) : Bool :=
  (pyStartsWith (pyLowerS (pyStrip param0)) (s2l ("rate=")) &&
    ((afterEq (pyStrip param0)).bind pyInt).isSome) ||
  (!(pyStartsWith (pyLowerS (pyStrip param0)) (s2l ("rate="))) &&
    pyContainsStr (s2l ("audio/L")) (pyStrip param0) &&
    ((afterL (pyStrip param0)).bind pyInt).isSome)

theorem mimeParamStep_id_of_not_parses (st : Int × Int) (p : Str)
    (h : segParses p = false) : mimeParamStep st p = st := by
  unfold segParses at h
  unfold mimeParamStep
  by_cases h1 : pyStartsWith (pyLowerS (pyStrip p)) (s2l ("rate=")) = true
  · simp only [h1, Bool.true_and, Bool.not_true, Bool.false_and, Bool.or_false,
      if_true] at h ⊢
    cases hx : (afterEq (pyStrip p)).bind pyInt with
    | none => simp
    | some r => rw [hx] at h; simp at h
  · rw [Bool.not_eq_true] at h1
    simp only [h1, Bool.false_and, Bool.not_false, Bool.true_and, Bool.false_or,
      Bool.false_eq_true, if_false] at h ⊢
    by_cases h2 : pyContainsStr (s2l ("audio/L")) (pyStrip p) = true
    · simp only [h2, Bool.true_and, if_true] at h ⊢
      cases hx : (afterL (pyStrip p)).bind pyInt with
      | none => simp
      | some b => rw [hx] at h; simp at h
    · simp [h2]

theorem foldl_mimeParamStep_id (ps : List Str) (st : Int × Int)
    (h : ∀ p ∈ ps, segParses p = false) :
    ps.foldl mimeParamStep st = st := by
  induction ps generalizing st with
  | nil => rfl
  | cons p rest ih =>
    simp only [List.foldl_cons]
    rw [mimeParamStep_id_of_not_parses st p (h p (by simp)), ih]
    intro q hq
    exact h q (by simp [hq])

/-- C6: `parse_audio_mime_type` returns (16, 44100) for
`audio/L16;rate=44100`, the defaults (16, 24000) for
`audio/something-unrecognized`, (24, 24000) for
`rate=not-a-number;audio/L24` (failed rate parse silently keeps the
default while bits is still parsed), and the defaults apply whenever no
recognised segment parses. -/
theorem c6_parse_mime_examples_and_defaults :
    parse_audio_mime_type (s2l ("audio/L16;rate=44100")) = (16, 44100) ∧
    parse_audio_mime_type (s2l ("audio/something-unrecognized")) = (16, 24000) ∧
    parse_audio_mime_type (s2l ("rate=not-a-number;audio/L24")) = (24, 24000) ∧
    (∀ m : Str, (∀ p ∈ pySplitChar ';' m, segParses p = false) →
      parse_audio_mime_type m = (16, 24000)) :=
  ⟨by decide, by decide, by decide,
   fun m h => foldl_mimeParamStep_id (pySplitChar ';' m) (16, 24000) h⟩

/-- C6 witness: the general default clause applied to the concrete input
`audio/something-unrecognized`. -/
theorem c6_witness :
    parse_audio_mime_type (s2l ("audio/something-unrecognized")) = (16, 24000) :=
  c6_parse_mime_examples_and_defaults.2.2.2 (s2l ("audio/something-unrecognized"))
    (by decide)

/-- C10: the bits-per-sample match is case-sensitive on the literal
`audio/L` while the rate match is case-insensitive: `AUDIO/L24;RATE=8000`
yields bits 16 (default) with rate 8000 (whereas the lower-case
`audio/L24;RATE=8000` yields bits 24), and the integer is taken after the
first `L` of the matching segment, so `WOLFaudio/L24` — where another `L`
precedes `audio/L` — yields the default bits (whereas plain `audio/L24`
yields 24). -/
theorem c10_case_sensitivity_bits :
    parse_audio_mime_type (s2l ("AUDIO/L24;RATE=8000")) = (16, 8000) ∧
    parse_audio_mime_type (s2l ("audio/L24;RATE=8000")) = (24, 8000) ∧
    parse_audio_mime_type (s2l ("WOLFaudio/L24")) = (16, 24000) ∧
    parse_audio_mime_type (s2l ("audio/L24")) = (24, 24000) :=
  ⟨by decide, by decide, by decide, by decide⟩

/-! ## `convert_to_wav` (source lines 296–323) -/

/-- ASCII string to byte list, for the literal 4-byte tags packed with
`4s`. -/
def s2b (s : String) : List Nat := s.data.map Char.toNat

/-- `struct.pack "<I"`: little-endian unsigned 32-bit; `none` models the
`struct.error` raised on an out-of-range argument. -/
def u32le (x : Int) : Option (List Nat) :=
  if 0 ≤ x ∧ x < 4294967296 then
    some [x.toNat % 256, x.toNat / 256 % 256, x.toNat / 65536 % 256,
      x.toNat / 16777216 % 256]
  else none

/-- `struct.pack "<H"`: little-endian unsigned 16-bit. -/
def u16le (x : Int) : Option (List Nat) :=
  if 0 ≤ x ∧ x < 65536 then some [x.toNat % 256, x.toNat / 256 % 256] else none

/-- The header built by `struct.pack("<4sI4s4sIHHIIHH4sI", ...)` in
`convert_to_wav`; field values as computed by the source
(`bytes_per_sample = bits_per_sample // 8` is Python floor division). -/
def packWavHeader (data_size : Nat) (bits_per_sample rate : Int) :
    Option (List Nat) := do
  let block_align := 1 * Int.fdiv bits_per_sample 8
  let f1 ← u32le (36 + (data_size : Int))
  let f2 ← u32le 16
  let f3 ← u16le 1
  let f4 ← u16le 1
  let f5 ← u32le rate
  let f6 ← u32le (rate * block_align)
  let f7 ← u16le block_align
  let f8 ← u16le bits_per_sample
  let f9 ← u32le (data_size : Int)
  pure (s2b ("RIFF") ++ f1 ++ s2b ("WAVE") ++ s2b ("fmt ") ++ f2 ++ f3 ++ f4 ++
    f5 ++ f6 ++ f7 ++ f8 ++ s2b ("data") ++ f9)

/-- `convert_to_wav`: parse the media type, build the header, prepend it to
the raw audio payload (a `struct.error` propagates as `none`). -/
def convert_to_wav (audio_data : List Nat) (mime_type : Str) : Option (List Nat) :=
  (packWavHeader audio_data.length (parse_audio_mime_type mime_type).1
    (parse_audio_mime_type mime_type).2).map (fun header => header ++ audio_data)

/-- Little-endian u32 as the spec describes it (total; arguments are in
range in every use). -/
def u32spec (n : Nat) : List Nat :=
  [n % 256, n / 256 % 256, n / 65536 % 256, n / 16777216 % 256]

/-- Little-endian u16 as the spec describes it. -/
def u16spec (n : Nat) : List Nat := [n % 256, n / 256 % 256]

/-- The 44-byte header laid out per the spec's field list (§4.5):
RIFF, chunkSize = 36+len, WAVE, "fmt ", subchunkSize = 16, audioFormat = 1,
numChannels = 1, sampleRate, byteRate = sampleRate × blockAlign,
blockAlign = 1 × (bitsPerSample / 8), bitsPerSample, data,
dataSize = len. -/
def wavHeaderSpec (sampleRate bitsPerSample payloadLen : Nat) : List Nat :=
  s2b ("RIFF") ++ u32spec (36 + payloadLen) ++ s2b ("WAVE") ++ s2b ("fmt ") ++
  u32spec 16 ++ u16spec 1 ++ u16spec 1 ++ u32spec sampleRate ++
  u32spec (sampleRate * (1 * (bitsPerSample / 8))) ++
  u16spec (1 * (bitsPerSample / 8)) ++ u16spec bitsPerSample ++
  s2b ("data") ++ u32spec payloadLen

theorem u32le_of_nat (n : Nat) (h : n < 4294967296) :
    u32le (n : Int) = some (u32spec n) := by
  unfold u32le u32spec
  rw [if_pos ⟨Int.natCast_nonneg n, by exact_mod_cast h⟩]
  simp

theorem u16le_of_nat (n : Nat) (h : n < 65536) :
    u16le (n : Int) = some (u16spec n) := by
  unfold u16le u16spec
  rw [if_pos ⟨Int.natCast_nonneg n, by exact_mod_cast h⟩]
  simp

theorem fdiv_nat_cast_eight (n : Nat) : Int.fdiv (n : Int) 8 = ((n / 8 : Nat) : Int) := by
  rw [Int.fdiv_eq_tdiv (Int.natCast_nonneg n) (by norm_num)]
  exact_mod_cast (Int.ofNat_tdiv n 8).symm

/-- C4: for every raw PCM payload and parsed parameters with bitsPerSample
a multiple of 8 (and all packed fields within `struct.pack` range),
`convert_to_wav` returns exactly the spec's 44-byte little-endian header —
RIFF, chunkSize = 36+len, WAVE, "fmt ", subchunkSize = 16, audioFormat = 1,
numChannels = 1, sampleRate, byteRate = sampleRate × blockAlign,
blockAlign = 1 × (bitsPerSample/8), bitsPerSample, data, dataSize = len —
followed by the unmodified payload. -/
theorem c4_wav_layout (data : List Nat) (mime : Str) (bitsN rateN : Nat)
    (hparse : parse_audio_mime_type mime = ((bitsN : Int), (rateN : Int)))
    (_hdiv : bitsN % 8 = 0)
    (hbits : bitsN < 65536)
    (hrate : rateN < 4294967296)
    (hbyte : rateN * (bitsN / 8) < 4294967296)
    (hlen : 36 + data.length < 4294967296) :
    convert_to_wav data mime =
      some (wavHeaderSpec rateN bitsN data.length ++ data) ∧
    (wavHeaderSpec rateN bitsN data.length).length = 44 := by
  constructor
  · have hba : Int.fdiv (bitsN : Int) 8 = ((bitsN / 8 : Nat) : Int) :=
      fdiv_nat_cast_eight bitsN
    have h36 : (36 + (data.length : Int)) = ((36 + data.length : Nat) : Int) := by
      push_cast; ring
    have hmul : (rateN : Int) * ((bitsN / 8 : Nat) : Int) =
        ((rateN * (bitsN / 8) : Nat) : Int) := by push_cast; ring
    have h16 : u32le 16 = some (u32spec 16) := by decide
    have h1 : u16le 1 = some (u16spec 1) := by decide
    have hdivbound : bitsN / 8 < 65536 := Nat.lt_of_le_of_lt (Nat.div_le_self _ _) hbits
    have hpack : packWavHeader data.length (bitsN : Int) (rateN : Int) =
        some (wavHeaderSpec rateN bitsN data.length) := by
      rw [packWavHeader, hba, one_mul, h36, hmul]
      rw [u32le_of_nat (36 + data.length) hlen, h16, h1,
        u32le_of_nat rateN hrate, u32le_of_nat (rateN * (bitsN / 8)) hbyte,
        u16le_of_nat (bitsN / 8) hdivbound, u16le_of_nat bitsN hbits,
        u32le_of_nat data.length (by omega)]
      simp [wavHeaderSpec]
    unfold convert_to_wav
    rw [hparse, hpack]
    rfl
  · have l1 : (s2b ("RIFF")).length = 4 := rfl
    have l2 : (s2b ("WAVE")).length = 4 := rfl
    have l3 : (s2b ("fmt ")).length = 4 := rfl
    have l4 : (s2b ("data")).length = 4 := rfl
    simp [wavHeaderSpec, u32spec, u16spec, l1, l2, l3, l4]

/-- C4 witness: a 10-byte payload at 16-bit/24000 Hz mono yields
chunkSize = 46, dataSize = 10, byteRate = 48000, blockAlign = 2. -/
theorem c4_witness :
    (convert_to_wav (List.replicate 10 0) (s2l ("audio/L16;rate=24000")) =
        some (wavHeaderSpec 24000 16 10 ++ List.replicate 10 0) ∧
      (wavHeaderSpec 24000 16 10).length = 44) ∧
    wavHeaderSpec 24000 16 10 =
      s2b ("RIFF") ++ u32spec 46 ++ s2b ("WAVE") ++ s2b ("fmt ") ++
      u32spec 16 ++ u16spec 1 ++ u16spec 1 ++ u32spec 24000 ++ u32spec 48000 ++
      u16spec 2 ++ u16spec 16 ++ s2b ("data") ++ u32spec 10 :=
  ⟨c4_wav_layout (List.replicate 10 0) (s2l ("audio/L16;rate=24000")) 16 24000
      (by decide) (by decide) (by decide) (by decide) (by decide) (by decide),
    by decide⟩

/-! ## Voice catalog and `select_voices_for_speakers` (source lines 34–66,
78–163)

The one network round-trip inside `select_voices_for_speakers` is
parameterised out: the function below receives the suggestion response's
text (`response.candidates[0].content.parts[0].text`) as an argument, and
the catalog is an explicit argument instantiated with
`get_available_voices` at the call site in `generate`.  `speaker_voices`
is a Python dict keyed by speaker name, modelled as an insertion-ordered
association list.  `male_voices[0]` on an empty list raises `IndexError`;
this is modelled by an `Option` result. -/

def get_available_voices : List (Str × Str × Str) :=
  [(s2l ("Zephyr"), s2l ("Bright"), s2l ("Female")),
   (s2l ("Puck"), s2l ("Upbeat"), s2l ("Male")),
   (s2l ("Charon"), s2l ("Informative"), s2l ("Male")),
   (s2l ("Kore"), s2l ("Firm"), s2l ("Female")),
   (s2l ("Fenrir"), s2l ("Excitable"), s2l ("Male")),
   (s2l ("Leda"), s2l ("Youthful"), s2l ("Female")),
   (s2l ("Orus"), s2l ("Firm"), s2l ("Male")),
   (s2l ("Aoede"), s2l ("Breezy"), s2l ("Female")),
   (s2l ("Callirrhoe"), s2l ("Easy-going"), s2l ("Female")),
   (s2l ("Autonoe"), s2l ("Bright"), s2l ("Female")),
   (s2l ("Enceladus"), s2l ("Breathy"), s2l ("Male")),
   (s2l ("Iapetus"), s2l ("Clear"), s2l ("Male")),
   (s2l ("Umbriel"), s2l ("Easy-going"), s2l ("Male")),
   (s2l ("Algieba"), s2l ("Smooth"), s2l ("Male")),
   (s2l ("Despina"), s2l ("Smooth"), s2l ("Female")),
   (s2l ("Erinome"), s2l ("Clear"), s2l ("Female")),
   (s2l ("Algenib"), s2l ("Gravelly"), s2l ("Male")),
   (s2l ("Rasalgethi"), s2l ("Informative"), s2l ("Male")),
   (s2l ("Laomedeia"), s2l ("Upbeat"), s2l ("Female")),
   (s2l ("Achernar"), s2l ("Soft"), s2l ("Female")),
   (s2l ("Alnilam"), s2l ("Firm"), s2l ("Male")),
   (s2l ("Schedar"), s2l ("Even"), s2l ("Male")),
   (s2l ("Gacrux"), s2l ("Mature"), s2l ("Female")),
   (s2l ("Pulcherrima"), s2l ("Forward"), s2l ("Female")),
   (s2l ("Achird"), s2l ("Friendly"), s2l ("Male")),
   (s2l ("Zubenelgenubi"), s2l ("Casual"), s2l ("Male")),
   (s2l ("Vindemiatrix"), s2l ("Gentle"), s2l ("Female")),
   (s2l ("Sadachbia"), s2l ("Lively"), s2l ("Male")),
   (s2l ("Sadaltager"), s2l ("Knowledgeable"), s2l ("Male")),
   (s2l ("Sulafat"), s2l ("Warm"), s2l ("Female"))]

def voiceNamesOf (available_voices : List (Str × Str × Str)) : List Str :=
  available_voices.map (fun v => v.1)

def maleVoicesOf (available_voices : List (Str × Str × Str)) : List Str :=
  (available_voices.filter (fun v => v.2.2 = s2l ("Male"))).map (fun v => v.1)

def femaleVoicesOf (available_voices : List (Str × Str × Str)) : List Str :=
  (available_voices.filter (fun v => v.2.2 = s2l ("Female"))).map (fun v => v.1)

/-- Python dict update: replace in place when the key exists, else append. -/
def dSet {α : Type} : List (Str × α) → Str → α → List (Str × α)
  | [], k, v => [(k, v)]
  | (k0, v0) :: rest, k, v =>
    if k0 = k then (k0, v) :: rest else (k0, v0) :: dSet rest k v

/-- Python dict lookup. -/
def dGet {α : Type} : List (Str × α) → Str → Option α
  | [], _ => none
  | (k0, v0) :: rest, k => if k0 = k then some v0 else dGet rest k

/-- Python `key in dict`. -/
def dMem {α : Type} (d : List (Str × α)) (k : Str) : Bool := (dGet d k).isSome

/-- `voice_names_lower.index(voice_lower)` then `voice_names[...]`: the
first catalog name whose lower-casing equals the candidate, in canonical
capitalization. -/
def canonOf : List Str → Str → Option Str
  | [], _ => none
  | name :: rest, vl => if pyLowerS name = vl then some name else canonOf rest vl

/-- `next((v[2] for v in available_voices if v[0] == name), "Male")`. -/
def genderOf : List (Str × Str × Str) → Str → Str
  | [], _ => s2l ("Male")
  | (n, _, g) :: rest, v => if n = v then g else genderOf rest v

/-- The `for voice in voice_names: if voice != ...: break / else:` search
for the first catalog name different from the given one. -/
def firstOther : List Str → Str → Option Str
  | [], _ => none
  | v :: rest, v1 => if v ≠ v1 then some v else firstOther rest v1

/-- One line of the response-parsing loop: case-insensitive
`"<speakerName>:"` prefix match, then case-insensitive resolution against
the catalog (the `elif` makes the speaker-2 check reachable only when the
speaker-1 check fails). -/
def voiceLineStep (voice_names : List Str) (speaker1_name speaker2_name : Str)
    (d : List (Str × Str)) (line : Str) : List (Str × Str) :=
  if pyStartsWith (pyLowerS line) (pyLowerS speaker1_name ++ [':']) then
    match (pySplitOnce ':' line).2 with
    | some rest =>
      match canonOf voice_names (pyLowerS (pyStrip rest)) with
      | some canon => dSet d speaker1_name canon
      | none => d
    | none => d
  else if pyStartsWith (pyLowerS line) (pyLowerS speaker2_name ++ [':']) then
    match (pySplitOnce ':' line).2 with
    | some rest =>
      match canonOf voice_names (pyLowerS (pyStrip rest)) with
      | some canon => dSet d speaker2_name canon
      | none => d
    | none => d
  else d

/-- The response-parsing phase of `select_voices_for_speakers`: strip the
response text, split on newlines, run the line loop over an empty dict. -/
def parsePhase (voice_names : List Str) (speaker1_name speaker2_name : Str)
    (responseText : Str) : List (Str × Str) :=
  (pySplitChar '\n' (pyStrip responseText)).foldl
    (voiceLineStep voice_names speaker1_name speaker2_name) []

/-- `if speaker1_name not in speaker_voices: ... = male_voices[0]`. -/
def fallbackSpeaker1 (male_voices : List Str) (speaker1_name : Str)
    (d : List (Str × Str)) : Option (List (Str × Str)) :=
  if dMem d speaker1_name then some d
  else
    match male_voices with
    | [] => none
    | m :: _ => some (dSet d speaker1_name m)

/-- `if speaker2_name not in speaker_voices: ...` — opposite-gender first
voice, then first male, then first different catalog entry, then the same
voice as speaker 1. -/
def fallbackSpeaker2 (available_voices : List (Str × Str × Str))
    (male_voices female_voices voice_names : List Str)
    (speaker1_name speaker2_name : Str) (d : List (Str × Str)) :
    List (Str × Str) :=
  if dMem d speaker2_name then d
  else
    let v1 := (dGet d speaker1_name).getD []
    if genderOf available_voices v1 = s2l ("Male") ∧ female_voices ≠ [] then
      dSet d speaker2_name (female_voices.headD [])
    else if male_voices ≠ [] then
      dSet d speaker2_name (male_voices.headD [])
    else
      match firstOther voice_names v1 with
      | some v => dSet d speaker2_name v
      | none => dSet d speaker2_name v1

/-- `select_voices_for_speakers`, with the suggestion response's text as an
argument (see the section comment). -/
def select_voices_for_speakers (available_voices : List (Str × Str × Str))
    (speaker1_name speaker2_name : Str) (responseText : Str) :
    Option (List (Str × Str)) :=
  (fallbackSpeaker1 (maleVoicesOf available_voices) speaker1_name
      (parsePhase (voiceNamesOf available_voices) speaker1_name speaker2_name
        responseText)).map
    (fallbackSpeaker2 available_voices (maleVoicesOf available_voices)
      (femaleVoicesOf available_voices) (voiceNamesOf available_voices)
      speaker1_name speaker2_name)

theorem dGet_dSet_self {α : Type} (d : List (Str × α)) (k : Str) (v : α) :
    dGet (dSet d k v) k = some v := by
  induction d with
  | nil => simp [dSet, dGet]
  | cons p rest ih =>
    by_cases h : p.1 = k
    · simp [dSet, dGet, h]
    · simp [dSet, dGet, h, ih]

theorem dGet_dSet_ne {α : Type} (d : List (Str × α)) (k k' : Str) (v : α)
    (h : k ≠ k') : dGet (dSet d k v) k' = dGet d k' := by
  induction d with
  | nil =>
    simp only [dSet, dGet]
    rw [if_neg h]
  | cons p rest ih =>
    rcases p with ⟨k0, v0⟩
    by_cases h0 : k0 = k
    · subst h0
      simp only [dSet, if_pos rfl, dGet]
      rw [if_neg h, if_neg h]
    · simp only [dSet, if_neg h0, dGet]
      by_cases h1 : k0 = k'
      · rw [if_pos h1, if_pos h1]
      · rw [if_neg h1, if_neg h1]
        exact ih

theorem dMem_dSet_ne {α : Type} (d : List (Str × α)) (k k' : Str) (v : α)
    (h : k ≠ k') : dMem (dSet d k v) k' = dMem d k' := by
  unfold dMem
  rw [dGet_dSet_ne d k k' v h]

theorem dGet_dSet_cases {α : Type} (d : List (Str × α)) (k k' : Str) (v w : α)
    (h : dGet (dSet d k v) k' = some w) : (k' = k ∧ w = v) ∨ dGet d k' = some w := by
  by_cases hk : k = k'
  · subst hk
    rw [dGet_dSet_self] at h
    exact Or.inl ⟨rfl, (Option.some_inj.mp h).symm⟩
  · rw [dGet_dSet_ne d k k' v hk] at h
    exact Or.inr h

theorem canonOf_mem (names : List Str) (vl c : Str)
    (h : canonOf names vl = some c) : c ∈ names := by
  induction names with
  | nil => simp [canonOf] at h
  | cons n rest ih =>
    unfold canonOf at h
    by_cases h0 : pyLowerS n = vl
    · rw [if_pos h0] at h
      simp only [Option.some_inj] at h
      simp [h]
    · rw [if_neg h0] at h
      exact List.mem_cons_of_mem n (ih h)

/-- Every value appearing in the dict is a catalog name. -/
def valuesIn (d : List (Str × Str)) (names : List Str) : Prop :=
  ∀ k v, dGet d k = some v → v ∈ names

theorem valuesIn_dSet (d : List (Str × Str)) (names : List Str) (k : Str) (v : Str)
    (hd : valuesIn d names) (hv : v ∈ names) : valuesIn (dSet d k v) names := by
  intro k' w h
  rcases dGet_dSet_cases d k k' v w h with ⟨_, rfl⟩ | h2
  · exact hv
  · exact hd k' w h2

theorem valuesIn_voiceLineStep (names : List Str) (s1 s2 : Str)
    (d : List (Str × Str)) (line : Str) (hd : valuesIn d names) :
    valuesIn (voiceLineStep names s1 s2 d line) names := by
  unfold voiceLineStep
  split
  · split
    · split
      · rename_i rest hrest canon hc
        exact valuesIn_dSet d names s1 canon hd (canonOf_mem _ _ _ hc)
      · exact hd
    · exact hd
  · split
    · split
      · split
        · rename_i rest hrest canon hc
          exact valuesIn_dSet d names s2 canon hd (canonOf_mem _ _ _ hc)
        · exact hd
      · exact hd
    · exact hd

theorem valuesIn_parsePhase (names : List Str) (s1 s2 resp : Str) :
    valuesIn (parsePhase names s1 s2 resp) names := by
  unfold parsePhase
  generalize pySplitChar '\n' (pyStrip resp) = lines
  have h : ∀ (ls : List Str) (d : List (Str × Str)), valuesIn d names →
      valuesIn (ls.foldl (voiceLineStep names s1 s2) d) names := by
    intro ls
    induction ls with
    | nil => intro d hd; exact hd
    | cons l rest ih =>
      intro d hd
      exact ih _ (valuesIn_voiceLineStep names s1 s2 d l hd)
  exact h lines [] (by intro k v hkv; simp [dGet] at hkv)

theorem genderOf_eq_of_mem_filter (avail : List (Str × Str × Str)) (g v : Str)
    (hnd : (voiceNamesOf avail).Nodup)
    (hv : v ∈ (avail.filter (fun e => e.2.2 = g)).map (fun e => e.1)) :
    genderOf avail v = g := by
  induction avail with
  | nil => simp at hv
  | cons e rest ih =>
    rcases e with ⟨n, s, gn⟩
    unfold voiceNamesOf at hnd
    simp only [List.map_cons, List.nodup_cons] at hnd
    obtain ⟨hnotin, hndrest⟩ := hnd
    unfold genderOf
    simp only [List.filter_cons] at hv
    by_cases hg : gn = g
    · simp only [decide_eq_true_eq] at hv
      rw [if_pos (by exact hg)] at hv
      simp only [List.map_cons, List.mem_cons] at hv
      rcases hv with rfl | hv
      · rw [if_pos rfl]
        exact hg
      · by_cases hn : n = v
        · exfalso
          have hmem2 : v ∈ rest.map (fun e => e.1) := by
            rcases List.mem_map.mp hv with ⟨e, he, rfl⟩
            exact List.mem_map.mpr ⟨e, List.mem_of_mem_filter he, rfl⟩
          rw [hn] at hnotin
          exact hnotin hmem2
        · rw [if_neg hn]
          exact ih hndrest hv
    · simp only [decide_eq_true_eq] at hv
      rw [if_neg (by exact hg)] at hv
      by_cases hn : n = v
      · exfalso
        have hmem2 : v ∈ rest.map (fun e => e.1) := by
          rcases List.mem_map.mp hv with ⟨e, he, rfl⟩
          exact List.mem_map.mpr ⟨e, List.mem_of_mem_filter he, rfl⟩
        rw [hn] at hnotin
        exact hnotin hmem2
      · rw [if_neg hn]
        exact ih hndrest hv

/-- With the deployed catalog, the voice the speaker-2 fallback picks
(first female voice `Zephyr` when speaker 1's voice is male, first male
voice `Puck` otherwise) differs from every catalog voice of the matching
gender; checked by evaluation over all 30 entries. -/
theorem deployed_pick_ne (v1 : Str)
    (hv1 : v1 ∈ voiceNamesOf get_available_voices) :
    (if genderOf get_available_voices v1 = s2l ("Male") then s2l ("Zephyr")
      else s2l ("Puck")) ≠ v1 := by
  have hall : (voiceNamesOf get_available_voices).all
      (fun v => decide ((if genderOf get_available_voices v = s2l ("Male")
        then s2l ("Zephyr") else s2l ("Puck")) ≠ v)) = true := by decide
  exact of_decide_eq_true (List.all_eq_true.mp hall v1 hv1)

theorem deployed_fallback2_distinct (s1 s2 : Str) (hne : s1 ≠ s2)
    (d1 : List (Str × Str)) (v1 : Str)
    (hv1 : dGet d1 s1 = some v1)
    (hmem : v1 ∈ voiceNamesOf get_available_voices)
    (hs2 : dMem d1 s2 = false) :
    ∃ v2,
      dGet (fallbackSpeaker2 get_available_voices
        (maleVoicesOf get_available_voices) (femaleVoicesOf get_available_voices)
        (voiceNamesOf get_available_voices) s1 s2 d1) s1 = some v1 ∧
      dGet (fallbackSpeaker2 get_available_voices
        (maleVoicesOf get_available_voices) (femaleVoicesOf get_available_voices)
        (voiceNamesOf get_available_voices) s1 s2 d1) s2 = some v2 ∧
      v1 ≠ v2 := by
  have hfem : femaleVoicesOf get_available_voices ≠ [] := by decide
  have hmale : maleVoicesOf get_available_voices ≠ [] := by decide
  have hzephyr : (femaleVoicesOf get_available_voices).headD [] = s2l ("Zephyr") := by
    decide
  have hpuck : (maleVoicesOf get_available_voices).headD [] = s2l ("Puck") := by decide
  have hne' : s2 ≠ s1 := fun h => hne h.symm
  have hpick := deployed_pick_ne v1 hmem
  unfold fallbackSpeaker2
  rw [hs2]
  simp only [Bool.false_eq_true, if_false, hv1, Option.getD_some]
  by_cases hg : genderOf get_available_voices v1 = s2l ("Male")
  · rw [if_pos ⟨hg, hfem⟩, hzephyr]
    refine ⟨s2l ("Zephyr"), ?_, ?_, ?_⟩
    · rw [dGet_dSet_ne d1 s2 s1 _ hne']
      exact hv1
    · exact dGet_dSet_self d1 s2 _
    · rw [if_pos hg] at hpick
      exact fun h => hpick h.symm
  · rw [if_neg (fun hc => hg hc.1), if_pos hmale, hpuck]
    refine ⟨s2l ("Puck"), ?_, ?_, ?_⟩
    · rw [dGet_dSet_ne d1 s2 s1 _ hne']
      exact hv1
    · exact dGet_dSet_self d1 s2 _
    · rw [if_neg hg] at hpick
      exact fun h => hpick h.symm

/-- C1 counterexample: with the deployed 30-entry catalog and distinct
speakers Alice and Bob, the suggestion response naming the same catalog
voice `Puck` for both speakers makes `select_voices_for_speakers` assign
the *same* voice to both — refuting the claim that the two assigned
voices always differ. -/
theorem c1_counterexample :
    ∃ d, select_voices_for_speakers get_available_voices (s2l ("Alice"))
        (s2l ("Bob")) (s2l ("Alice: Puck\nBob: Puck")) = some d ∧
      dGet d (s2l ("Alice")) = some (s2l ("Puck")) ∧
      dGet d (s2l ("Bob")) = some (s2l ("Puck")) :=
  ⟨[(s2l ("Alice"), s2l ("Puck")), (s2l ("Bob"), s2l ("Puck"))],
    by decide, by decide, by decide⟩

/-- C1 (amended): with the deployed catalog and distinct speaker names,
the mapping assigns both speakers a voice and the two voices differ
whenever the response-parsing phase leaves speaker 2 unresolved; and when
the parse phase resolves both speakers, the parsed voices are returned
unchanged (so the result is distinct exactly when the response named
distinct voices). -/
theorem c1_distinct_unless_response_collides :
    (∀ s1 s2 resp : Str, s1 ≠ s2 →
      dMem (parsePhase (voiceNamesOf get_available_voices) s1 s2 resp) s2 = false →
      ∃ d, select_voices_for_speakers get_available_voices s1 s2 resp = some d ∧
        ∃ v1 v2, dGet d s1 = some v1 ∧ dGet d s2 = some v2 ∧ v1 ≠ v2) ∧
    (∀ s1 s2 resp a b : Str, s1 ≠ s2 → a ≠ b →
      dGet (parsePhase (voiceNamesOf get_available_voices) s1 s2 resp) s1 = some a →
      dGet (parsePhase (voiceNamesOf get_available_voices) s1 s2 resp) s2 = some b →
      ∃ d, select_voices_for_speakers get_available_voices s1 s2 resp = some d ∧
        dGet d s1 = some a ∧ dGet d s2 = some b) := by
  constructor
  · intro s1 s2 resp hne hs2un
    unfold select_voices_for_speakers fallbackSpeaker1
    by_cases hmem1 : dMem (parsePhase (voiceNamesOf get_available_voices) s1 s2 resp)
        s1 = true
    · rw [if_pos hmem1]
      obtain ⟨v1, hv1⟩ := Option.isSome_iff_exists.mp hmem1
      obtain ⟨v2, h1, h2, h3⟩ := deployed_fallback2_distinct s1 s2 hne _ v1 hv1
        (valuesIn_parsePhase _ s1 s2 resp s1 v1 hv1) hs2un
      exact ⟨_, rfl, v1, v2, h1, h2, h3⟩
    · rw [if_neg hmem1]
      have hml : maleVoicesOf get_available_voices =
          s2l ("Puck") :: (maleVoicesOf get_available_voices).tail := by decide
      rw [hml]
      have hv1 : dGet (dSet (parsePhase (voiceNamesOf get_available_voices) s1 s2 resp)
          s1 (s2l ("Puck"))) s1 = some (s2l ("Puck")) := dGet_dSet_self _ s1 _
      have hs2un' : dMem (dSet (parsePhase (voiceNamesOf get_available_voices) s1 s2
          resp) s1 (s2l ("Puck"))) s2 = false := by
        rw [dMem_dSet_ne _ s1 s2 _ hne]
        exact hs2un
      obtain ⟨v2, h1, h2, h3⟩ := deployed_fallback2_distinct s1 s2 hne _ (s2l ("Puck"))
        hv1 (by decide) hs2un'
      exact ⟨_, rfl, s2l ("Puck"), v2, h1, h2, h3⟩
  · intro s1 s2 resp a b hne hab hva hvb
    unfold select_voices_for_speakers fallbackSpeaker1
    have hmem1 : dMem (parsePhase (voiceNamesOf get_available_voices) s1 s2 resp)
        s1 = true := by
      unfold dMem
      rw [hva]
      rfl
    have hmem2 : dMem (parsePhase (voiceNamesOf get_available_voices) s1 s2 resp)
        s2 = true := by
      unfold dMem
      rw [hvb]
      rfl
    rw [if_pos hmem1]
    refine ⟨_, rfl, ?_, ?_⟩
    · unfold fallbackSpeaker2
      rw [hmem2]
      simp only [if_true]
      exact hva
    · unfold fallbackSpeaker2
      rw [hmem2]
      simp only [if_true]
      exact hvb

/-- C1 witness: the amended theorem applied to Alice/Bob with the empty
response (which resolves neither speaker). -/
theorem c1_witness :
    ∃ d, select_voices_for_speakers get_available_voices (s2l ("Alice"))
        (s2l ("Bob")) (s2l ("")) = some d ∧
      ∃ v1 v2, dGet d (s2l ("Alice")) = some v1 ∧ dGet d (s2l ("Bob")) = some v2 ∧
        v1 ≠ v2 :=
  c1_distinct_unless_response_collides.1 (s2l ("Alice")) (s2l ("Bob")) (s2l (""))
    (by decide) (by decide)

/-- C7: when the response-parsing phase resolves nothing (empty or fully
malformed suggestion response), `select_voices_for_speakers` still returns
a mapping populated for both (distinct) speaker names, with two distinct
voices for any catalog with unique names having at least one male and one
female entry (hence ≥ 2 entries), and the fallback is deterministic: two
invocations on the same inputs give identical mappings. -/
theorem c7_fallback_populated_distinct_deterministic
    (avail : List (Str × Str × Str)) (s1 s2 resp : Str)
    (hne : s1 ≠ s2)
    (hnd : (voiceNamesOf avail).Nodup)
    (hm : maleVoicesOf avail ≠ [])
    (hf : femaleVoicesOf avail ≠ [])
    (hempty : parsePhase (voiceNamesOf avail) s1 s2 resp = []) :
    (∃ d, select_voices_for_speakers avail s1 s2 resp = some d ∧
      ∃ v1 v2, dGet d s1 = some v1 ∧ dGet d s2 = some v2 ∧ v1 ≠ v2) ∧
    select_voices_for_speakers avail s1 s2 resp =
      select_voices_for_speakers avail s1 s2 resp := by
  refine ⟨?_, rfl⟩
  rcases hml : maleVoicesOf avail with _ | ⟨m0, mtl⟩
  · exact absurd hml hm
  rcases hfl : femaleVoicesOf avail with _ | ⟨f0, ftl⟩
  · exact absurd hfl hf
  have hm0mem : m0 ∈ maleVoicesOf avail := by
    rw [hml]
    exact List.mem_cons_self _ _
  have hf0mem : f0 ∈ femaleVoicesOf avail := by
    rw [hfl]
    exact List.mem_cons_self _ _
  have hgm : genderOf avail m0 = s2l ("Male") :=
    genderOf_eq_of_mem_filter avail (s2l ("Male")) m0 hnd hm0mem
  have hgf : genderOf avail f0 = s2l ("Female") :=
    genderOf_eq_of_mem_filter avail (s2l ("Female")) f0 hnd hf0mem
  have hmf : m0 ≠ f0 := by
    intro h
    rw [h, hgf] at hgm
    exact absurd hgm (by decide)
  have hne' : s2 ≠ s1 := fun h => hne h.symm
  have hget1 : dGet [(s1, m0)] s1 = some m0 := by
    unfold dGet
    rw [if_pos rfl]
  have hdm2 : dMem [(s1, m0)] s2 = false := by
    unfold dMem dGet
    rw [if_neg hne]
    rfl
  have hf2 : fallbackSpeaker2 avail (m0 :: mtl) (femaleVoicesOf avail)
      (voiceNamesOf avail) s1 s2 [(s1, m0)] = dSet [(s1, m0)] s2 f0 := by
    unfold fallbackSpeaker2
    rw [hdm2]
    simp only [Bool.false_eq_true, if_false, hget1, Option.getD_some]
    rw [if_pos ⟨hgm, hf⟩, hfl]
    rfl
  have hsel : select_voices_for_speakers avail s1 s2 resp =
      some (dSet [(s1, m0)] s2 f0) := by
    unfold select_voices_for_speakers fallbackSpeaker1
    rw [hempty, hml]
    have hdm1 : dMem ([] : List (Str × Str)) s1 = false := rfl
    rw [hdm1]
    simp only [Bool.false_eq_true, if_false, Option.map_some]
    show some (fallbackSpeaker2 avail (m0 :: mtl) (femaleVoicesOf avail)
      (voiceNamesOf avail) s1 s2 [(s1, m0)]) = some (dSet [(s1, m0)] s2 f0)
    rw [hf2]
  refine ⟨_, hsel, m0, f0, ?_, ?_, hmf⟩
  · rw [dGet_dSet_ne _ s2 s1 _ hne']
    exact hget1
  · exact dGet_dSet_self _ s2 _

/-- C7 witness: deployed catalog, speakers Alice and Bob, empty response. -/
theorem c7_witness :
    (∃ d, select_voices_for_speakers get_available_voices (s2l ("Alice"))
        (s2l ("Bob")) (s2l ("")) = some d ∧
      ∃ v1 v2, dGet d (s2l ("Alice")) = some v1 ∧ dGet d (s2l ("Bob")) = some v2 ∧
        v1 ≠ v2) ∧
    select_voices_for_speakers get_available_voices (s2l ("Alice")) (s2l ("Bob"))
        (s2l ("")) =
      select_voices_for_speakers get_available_voices (s2l ("Alice")) (s2l ("Bob"))
        (s2l ("")) :=
  c7_fallback_populated_distinct_deterministic get_available_voices
    (s2l ("Alice")) (s2l ("Bob")) (s2l ("")) (by decide) (by decide) (by decide)
    (by decide) (by decide)

theorem pyStartsWith_append (p t : Str) : pyStartsWith (p ++ t) p = true := by
  induction p with
  | nil => cases t <;> rfl
  | cons c r ih => simp [pyStartsWith, ih]

theorem pyStartsWith_sep_ne (sep : Char) (a b u : Str)
    (ha : sep ∉ a) (hb : sep ∉ b) (hab : a ≠ b) :
    pyStartsWith (a ++ sep :: u) (b ++ [sep]) = false := by
  induction a generalizing b with
  | nil =>
    cases b with
    | nil => exact absurd rfl hab
    | cons d bs =>
      have hd : sep ≠ d := fun h => hb (h ▸ List.mem_cons_self d bs)
      simp [pyStartsWith, hd]
  | cons c as ih =>
    cases b with
    | nil =>
      have hc : c ≠ sep := fun h => ha (h ▸ List.mem_cons_self c as)
      simp [pyStartsWith, hc]
    | cons d bs =>
      by_cases hcd : c = d
      · subst hcd
        have has : sep ∉ as := fun h => ha (List.mem_cons_of_mem _ h)
        have hbs : sep ∉ bs := fun h => hb (List.mem_cons_of_mem _ h)
        have hne : as ≠ bs := fun h => hab (h ▸ rfl)
        simp [pyStartsWith, ih bs has hbs hne]
      · simp [pyStartsWith, hcd]

theorem pySplitOnce_first (sep : Char) (a u : Str) (ha : sep ∉ a) :
    pySplitOnce sep (a ++ sep :: u) = (a, some u) := by
  induction a with
  | nil => simp [pySplitOnce]
  | cons c r ih =>
    have hc : c ≠ sep := fun h => ha (h ▸ List.mem_cons_self c r)
    have hr : sep ∉ r := fun h => ha (List.mem_cons_of_mem _ h)
    simp [pySplitOnce, hc, ih hr]

theorem pySplitChar_no_sep (sep : Char) (s : Str) (h : sep ∉ s) :
    pySplitChar sep s = [s] := by
  induction s with
  | nil => rfl
  | cons c r ih =>
    have hc : c ≠ sep := fun hh => h (hh ▸ List.mem_cons_self c r)
    have hr : sep ∉ r := fun hh => h (List.mem_cons_of_mem _ hh)
    rw [pySplitChar, if_neg hc, ih hr]

theorem pySplitChar_sep_append (sep : Char) (a b : Str) (ha : sep ∉ a) :
    pySplitChar sep (a ++ sep :: b) = a :: pySplitChar sep b := by
  induction a with
  | nil => simp [pySplitChar]
  | cons c r ih =>
    have hc : c ≠ sep := fun h => ha (h ▸ List.mem_cons_self c r)
    have hr : sep ∉ r := fun h => ha (List.mem_cons_of_mem _ h)
    rw [List.cons_append, pySplitChar, if_neg hc, ih hr]

theorem lowerChar_colon (c : Char) (h : lowerChar c = ':') : c = ':' := by
  unfold lowerChar at h
  split at h <;> first
    | exact h
    | exact absurd h (by decide)

theorem not_colon_pyLowerS (x : Str) (h : ':' ∉ x) : ':' ∉ pyLowerS x := by
  intro hmem
  rcases List.mem_map.mp hmem with ⟨c, hc, hlc⟩
  rw [lowerChar_colon c hlc] at hc
  exact h hc

theorem pyLowerS_line (c w : Str) :
    pyLowerS (c ++ ':' :: w) = pyLowerS c ++ ':' :: pyLowerS w := by
  unfold pyLowerS
  rw [List.map_append, List.map_cons]
  rfl

theorem voiceLineStep_hit1 (names : List Str) (s1 s2 c w v : Str)
    (d : List (Str × Str))
    (hc : ':' ∉ c) (hl : pyLowerS c = pyLowerS s1)
    (hv : canonOf names (pyLowerS (pyStrip w)) = some v) :
    voiceLineStep names s1 s2 d (c ++ ':' :: w) = dSet d s1 v := by
  have hcond : pyStartsWith (pyLowerS (c ++ ':' :: w)) (pyLowerS s1 ++ [':']) =
      true := by
    rw [pyLowerS_line, hl]
    rw [show pyLowerS s1 ++ ':' :: pyLowerS w =
      (pyLowerS s1 ++ [':']) ++ pyLowerS w by simp]
    exact pyStartsWith_append _ _
  unfold voiceLineStep
  rw [if_pos hcond, pySplitOnce_first ':' c w hc]
  show (match canonOf names (pyLowerS (pyStrip w)) with
    | some canon => dSet d s1 canon
    | none => d) = dSet d s1 v
  rw [hv]

theorem voiceLineStep_hit2 (names : List Str) (s1 s2 c w v : Str)
    (d : List (Str × Str))
    (hc : ':' ∉ c) (hl : pyLowerS c = pyLowerS s2)
    (hs1 : ':' ∉ pyLowerS s1) (hlow : pyLowerS s1 ≠ pyLowerS s2)
    (hv : canonOf names (pyLowerS (pyStrip w)) = some v) :
    voiceLineStep names s1 s2 d (c ++ ':' :: w) = dSet d s2 v := by
  have hs2free : ':' ∉ pyLowerS s2 := by
    rw [← hl]
    exact not_colon_pyLowerS c hc
  have hcond1 : pyStartsWith (pyLowerS (c ++ ':' :: w)) (pyLowerS s1 ++ [':']) =
      false := by
    rw [pyLowerS_line, hl]
    exact pyStartsWith_sep_ne ':' (pyLowerS s2) (pyLowerS s1) (pyLowerS w)
      hs2free hs1 (fun h => hlow h.symm)
  have hcond2 : pyStartsWith (pyLowerS (c ++ ':' :: w)) (pyLowerS s2 ++ [':']) =
      true := by
    rw [pyLowerS_line, hl]
    rw [show pyLowerS s2 ++ ':' :: pyLowerS w =
      (pyLowerS s2 ++ [':']) ++ pyLowerS w by simp]
    exact pyStartsWith_append _ _
  unfold voiceLineStep
  rw [hcond1]
  simp only [Bool.false_eq_true, if_false]
  rw [if_pos hcond2, pySplitOnce_first ':' c w hc]
  show (match canonOf names (pyLowerS (pyStrip w)) with
    | some canon => dSet d s2 canon
    | none => d) = dSet d s2 v
  rw [hv]

/-- C8: for a well-formed suggestion response — one line per speaker in
the requested `SpeakerName: VoiceName` format (speaker-name prefix matched
case-insensitively, any casing of the voice name, surrounding whitespace
allowed), the two named voices resolving to distinct catalog voices — the
returned mapping assigns exactly those voices, normalized to the catalog's
canonical capitalization. -/
theorem c8_wellformed_response_verbatim
    (avail : List (Str × Str × Str)) (s1 s2 c1 c2 w1 w2 v1 v2 resp : Str)
    (hresp : pyStrip resp = (c1 ++ ':' :: w1) ++ '\n' :: (c2 ++ ':' :: w2))
    (hc1 : ':' ∉ c1) (hc2 : ':' ∉ c2)
    (hnl1 : '\n' ∉ c1 ++ ':' :: w1) (hnl2 : '\n' ∉ c2 ++ ':' :: w2)
    (hl1 : pyLowerS c1 = pyLowerS s1) (hl2 : pyLowerS c2 = pyLowerS s2)
    (hlow : pyLowerS s1 ≠ pyLowerS s2)
    (hv1 : canonOf (voiceNamesOf avail) (pyLowerS (pyStrip w1)) = some v1)
    (hv2 : canonOf (voiceNamesOf avail) (pyLowerS (pyStrip w2)) = some v2)
    (_hvne : v1 ≠ v2) :
    ∃ d, select_voices_for_speakers avail s1 s2 resp = some d ∧
      dGet d s1 = some v1 ∧ dGet d s2 = some v2 := by
  have hne : s1 ≠ s2 := fun h => hlow (by rw [h])
  have hs1free : ':' ∉ pyLowerS s1 := by
    rw [← hl1]
    exact not_colon_pyLowerS c1 hc1
  have hlines : pySplitChar '\n' (pyStrip resp) =
      [c1 ++ ':' :: w1, c2 ++ ':' :: w2] := by
    rw [hresp, pySplitChar_sep_append '\n' _ _ hnl1, pySplitChar_no_sep '\n' _ hnl2]
  have hpp : parsePhase (voiceNamesOf avail) s1 s2 resp = [(s1, v1), (s2, v2)] := by
    unfold parsePhase
    rw [hlines, List.foldl_cons, List.foldl_cons, List.foldl_nil]
    rw [voiceLineStep_hit1 _ s1 s2 c1 w1 v1 [] hc1 hl1 hv1]
    rw [voiceLineStep_hit2 _ s1 s2 c2 w2 v2 _ hc2 hl2 hs1free hlow hv2]
    rw [show (dSet ([] : List (Str × Str)) s1 v1) = [(s1, v1)] from rfl]
    unfold dSet
    rw [if_neg hne]
    rfl
  have hd1 : dMem [(s1, v1), (s2, v2)] s1 = true := by
    unfold dMem dGet
    rw [if_pos rfl]
    rfl
  have hd2g : dGet [(s1, v1), (s2, v2)] s2 = some v2 := by
    unfold dGet
    rw [if_neg hne]
    rw [show dGet [(s2, v2)] s2 = some v2 by unfold dGet; rw [if_pos rfl]]
  have hd2 : dMem [(s1, v1), (s2, v2)] s2 = true := by
    unfold dMem
    rw [hd2g]
    rfl
  have hd1g : dGet [(s1, v1), (s2, v2)] s1 = some v1 := by
    unfold dGet
    rw [if_pos rfl]
  have hfb2 : fallbackSpeaker2 avail (maleVoicesOf avail) (femaleVoicesOf avail)
      (voiceNamesOf avail) s1 s2 [(s1, v1), (s2, v2)] = [(s1, v1), (s2, v2)] := by
    unfold fallbackSpeaker2
    rw [hd2]
    rw [if_pos rfl]
  refine ⟨[(s1, v1), (s2, v2)], ?_, hd1g, hd2g⟩
  unfold select_voices_for_speakers fallbackSpeaker1
  rw [hpp, if_pos hd1]
  have hmap : Option.map (fallbackSpeaker2 avail (maleVoicesOf avail)
      (femaleVoicesOf avail) (voiceNamesOf avail) s1 s2)
      (some [(s1, v1), (s2, v2)]) =
      some (fallbackSpeaker2 avail (maleVoicesOf avail) (femaleVoicesOf avail)
        (voiceNamesOf avail) s1 s2 [(s1, v1), (s2, v2)]) := rfl
  rw [hmap, hfb2]

/-- C8 witness: speakers Alice and Bob, response lines in mixed case
(`ALICE:  puck` and `bob: KORE`), resolved to the canonical catalog names
`Puck` and `Kore`. -/
theorem c8_witness :
    ∃ d, select_voices_for_speakers get_available_voices (s2l ("Alice"))
        (s2l ("Bob")) (s2l ("ALICE:  puck \nbob: KORE")) = some d ∧
      dGet d (s2l ("Alice")) = some (s2l ("Puck")) ∧
      dGet d (s2l ("Bob")) = some (s2l ("Kore")) :=
  c8_wellformed_response_verbatim get_available_voices (s2l ("Alice"))
    (s2l ("Bob")) (s2l ("ALICE")) (s2l ("bob")) (s2l ("  puck ")) (s2l (" KORE"))
    (s2l ("Puck")) (s2l ("Kore")) (s2l ("ALICE:  puck \nbob: KORE"))
    (by decide) (by decide) (by decide) (by decide) (by decide) (by decide)
    (by decide) (by decide) (by decide) (by decide) (by decide)

/-! ## Streaming loop of `generate` (source lines 276–294)

The generation service's lazy chunk sequence is modelled as a finite
`List Chunk`; `mimetypes.guess_extension` (Python stdlib) is parameterised
as `guessExt`; `save_binary_file` is modelled by recording `(path, bytes)`
write events, and `print(chunk.text)` by recording the printed text.
Cosmetic progress messages are not recorded.  A `struct.error` escaping
`convert_to_wav` aborts the run (`none`). -/

structure Blob where
  data : List Nat
  mime_type : Str

structure MsgPart where
  inline_data : Option Blob

structure Candidate where
  parts : List MsgPart

structure Chunk where
  candidates : List Candidate
  text : Str

/-- `mimetypes.guess_extension(mime) or ".wav"`. -/
def extFor (guessExt : Str → Option Str) (mime : Str) : Str :=
  (guessExt mime).getD (s2l (".wav"))

/-- The write event a binary payload produces: raw bytes for `audio/wav`,
otherwise the `convert_to_wav` output; `none` when the conversion raises. -/
def blobWrite (guessExt : Str → Option Str) (file_name : Str)
    (inline_data : Blob) : Option (Str × List Nat) :=
  if inline_data.mime_type = s2l ("audio/wav") then
    some (file_name ++ extFor guessExt inline_data.mime_type, inline_data.data)
  else
    match convert_to_wav inline_data.data inline_data.mime_type with
    | some data_buffer =>
      some (file_name ++ extFor guessExt inline_data.mime_type, data_buffer)
    | none => none

/-- One iteration of the streaming loop: `none` when the conversion raises;
otherwise an optional write event and an optional printed text. -/
def processChunk (guessExt : Str → Option Str) (file_name : Str) (chunk : Chunk) :
    Option (Option (Str × List Nat) × Option Str) :=
  match chunk.candidates with
  | [] => some (none, none)
  | cand :: _ =>
    match cand.parts with
    | [] => some (none, none)
    | part :: _ =>
      match part.inline_data with
      | some inline_data =>
        match blobWrite guessExt file_name inline_data with
        | some w => some (some w, none)
        | none => none
      | none => some (none, some chunk.text)

/-- The whole streaming loop: the ordered write events and printed texts. -/
def runStream (guessExt : Str → Option Str) (file_name : Str) :
    List Chunk → Option (List (Str × List Nat) × List Str)
  | [] => some ([], [])
  | c :: rest =>
    match processChunk guessExt file_name c with
    | none => none
    | some (w, p) =>
      match runStream guessExt file_name rest with
      | none => none
      | some (ws, ps) => some (w.toList ++ ws, p.toList ++ ps)

/-- The write event (if any) a chunk produces. -/
def writeOf (guessExt : Str → Option Str) (file_name : Str) (c : Chunk) :
    Option (Str × List Nat) :=
  match processChunk guessExt file_name c with
  | some (w, _) => w
  | none => none

/-- The binary payload carried by a chunk, when it has one. -/
def chunkBlob (c : Chunk) : Option Blob :=
  match c.candidates with
  | [] => none
  | cand :: _ =>
    match cand.parts with
    | [] => none
    | part :: _ => part.inline_data

/-- The payload's destination extension, when the chunk has a payload. -/
def extOfChunk (guessExt : Str → Option Str) (c : Chunk) : Option Str :=
  (chunkBlob c).map (fun b => extFor guessExt b.mime_type)

/-- The on-disk state after a run: later writes to the same path replace
earlier ones. -/
def lastWins (ws : List (Str × List Nat)) : List (Str × List Nat) :=
  ws.foldl (fun fs w => dSet fs w.1 w.2) []

/-- A chunk carrying a binary payload, as built by the generation
service. -/
def binChunkOf (data : List Nat) (mime : Str) : Chunk :=
  { candidates := [{ parts := [{ inline_data := some { data := data, mime_type := mime } }] }],
    text := [] }

/-- A chunk carrying only text. -/
def textChunkOf (t : Str) : Chunk :=
  { candidates := [{ parts := [{ inline_data := none }] }], text := t }

theorem runStream_cons (gE : Str → Option Str) (fn : Str) (c : Chunk)
    (rest : List Chunk) :
    runStream gE fn (c :: rest) =
      match processChunk gE fn c with
      | none => none
      | some (w, p) =>
        match runStream gE fn rest with
        | none => none
        | some (ws, ps) => some (w.toList ++ ws, p.toList ++ ps) := rfl

theorem runStream_skip (gE : Str → Option Str) (fn : Str) (c : Chunk)
    (rest : List Chunk) (hpc : processChunk gE fn c = some (none, none)) :
    runStream gE fn (c :: rest) = runStream gE fn rest := by
  rw [runStream_cons, hpc]
  cases hr : runStream gE fn rest with
  | none => rfl
  | some r =>
    rcases r with ⟨ws, ps⟩
    simp [Option.toList]

theorem runStream_print (gE : Str → Option Str) (fn : Str) (c : Chunk)
    (rest : List Chunk) (t : Str)
    (hpc : processChunk gE fn c = some (none, some t)) :
    runStream gE fn (c :: rest) =
      (runStream gE fn rest).map (fun r => (r.1, t :: r.2)) := by
  rw [runStream_cons, hpc]
  cases hr : runStream gE fn rest with
  | none => rfl
  | some r =>
    rcases r with ⟨ws, ps⟩
    simp [Option.toList]

theorem runStream_write (gE : Str → Option Str) (fn : Str) (c : Chunk)
    (rest : List Chunk) (w : Str × List Nat)
    (hpc : processChunk gE fn c = some (some w, none)) :
    runStream gE fn (c :: rest) =
      (runStream gE fn rest).map (fun r => (w :: r.1, r.2)) := by
  rw [runStream_cons, hpc]
  cases hr : runStream gE fn rest with
  | none => rfl
  | some r =>
    rcases r with ⟨ws, ps⟩
    simp [Option.toList]

/-- C9: in the streaming loop, a chunk with no candidates or no parts is
skipped; a chunk carrying text but no binary payload is printed and writes
nothing; a Binary chunk with media type `audio/wav` has its bytes written
unchanged; a Binary chunk with any other media type is written after
MediaTypeParser + WavEncoder conversion; and the sequence
`[Text("hello"), Binary(pcm, "audio/L16;rate=24000")]` writes exactly one
file containing the WAV-wrapped payload. -/
theorem c9_stream_dispatch :
    (∀ (gE : Str → Option Str) (fn : Str) (c : Chunk) (rest : List Chunk),
      c.candidates = [] →
      runStream gE fn (c :: rest) = runStream gE fn rest) ∧
    (∀ (gE : Str → Option Str) (fn : Str) (c : Chunk) (rest : List Chunk)
      (cand : Candidate) (tl : List Candidate),
      c.candidates = cand :: tl → cand.parts = [] →
      runStream gE fn (c :: rest) = runStream gE fn rest) ∧
    (∀ (gE : Str → Option Str) (fn : Str) (c : Chunk) (rest : List Chunk)
      (cand : Candidate) (tl : List Candidate) (part : MsgPart)
      (ptl : List MsgPart),
      c.candidates = cand :: tl → cand.parts = part :: ptl →
      part.inline_data = none →
      runStream gE fn (c :: rest) =
        (runStream gE fn rest).map (fun r => (r.1, c.text :: r.2))) ∧
    (∀ (gE : Str → Option Str) (fn : Str) (c : Chunk) (rest : List Chunk)
      (cand : Candidate) (tl : List Candidate) (part : MsgPart)
      (ptl : List MsgPart) (b : Blob),
      c.candidates = cand :: tl → cand.parts = part :: ptl →
      part.inline_data = some b → b.mime_type = s2l ("audio/wav") →
      runStream gE fn (c :: rest) =
        (runStream gE fn rest).map
          (fun r => ((fn ++ extFor gE b.mime_type, b.data) :: r.1, r.2))) ∧
    (∀ (gE : Str → Option Str) (fn : Str) (c : Chunk) (rest : List Chunk)
      (cand : Candidate) (tl : List Candidate) (part : MsgPart)
      (ptl : List MsgPart) (b : Blob) (buf : List Nat),
      c.candidates = cand :: tl → cand.parts = part :: ptl →
      part.inline_data = some b → b.mime_type ≠ s2l ("audio/wav") →
      convert_to_wav b.data b.mime_type = some buf →
      runStream gE fn (c :: rest) =
        (runStream gE fn rest).map
          (fun r => ((fn ++ extFor gE b.mime_type, buf) :: r.1, r.2))) ∧
    (∀ (gE : Str → Option Str) (fn : Str) (pcm buf : List Nat),
      gE (s2l ("audio/L16;rate=24000")) = none →
      convert_to_wav pcm (s2l ("audio/L16;rate=24000")) = some buf →
      runStream gE fn [textChunkOf (s2l ("hello")),
        binChunkOf pcm (s2l ("audio/L16;rate=24000"))] =
        some ([(fn ++ s2l (".wav"), buf)], [s2l ("hello")])) := by
  have hE : ∀ (gE : Str → Option Str) (fn : Str) (c : Chunk) (rest : List Chunk)
      (cand : Candidate) (tl : List Candidate) (part : MsgPart)
      (ptl : List MsgPart) (b : Blob) (buf : List Nat),
      c.candidates = cand :: tl → cand.parts = part :: ptl →
      part.inline_data = some b → b.mime_type ≠ s2l ("audio/wav") →
      convert_to_wav b.data b.mime_type = some buf →
      runStream gE fn (c :: rest) =
        (runStream gE fn rest).map
          (fun r => ((fn ++ extFor gE b.mime_type, buf) :: r.1, r.2)) := by
    intro gE fn c rest cand tl part ptl b buf hcand hparts hinl hmime hbuf
    have hw : blobWrite gE fn b = some (fn ++ extFor gE b.mime_type, buf) := by
      unfold blobWrite
      rw [if_neg hmime, hbuf]
    refine runStream_write gE fn c rest _ ?_
    simp only [processChunk, hcand, hparts, hinl, hw]
  refine ⟨?_, ?_, ?_, ?_, hE, ?_⟩
  · intro gE fn c rest hcand
    refine runStream_skip gE fn c rest ?_
    simp only [processChunk, hcand]
  · intro gE fn c rest cand tl hcand hparts
    refine runStream_skip gE fn c rest ?_
    simp only [processChunk, hcand, hparts]
  · intro gE fn c rest cand tl part ptl hcand hparts hinl
    refine runStream_print gE fn c rest c.text ?_
    simp only [processChunk, hcand, hparts, hinl]
  · intro gE fn c rest cand tl part ptl b hcand hparts hinl hmime
    have hw : blobWrite gE fn b = some (fn ++ extFor gE b.mime_type, b.data) := by
      unfold blobWrite
      rw [if_pos hmime]
    refine runStream_write gE fn c rest _ ?_
    simp only [processChunk, hcand, hparts, hinl, hw]
  · intro gE fn pcm buf hgE hbuf
    have h1 : processChunk gE fn (textChunkOf (s2l ("hello"))) =
        some (none, some (s2l ("hello"))) := rfl
    have e1 := runStream_print gE fn (textChunkOf (s2l ("hello")))
      [binChunkOf pcm (s2l ("audio/L16;rate=24000"))] (s2l ("hello")) h1
    have hmime0 : (Blob.mk pcm (s2l ("audio/L16;rate=24000"))).mime_type ≠
        s2l ("audio/wav") := by
      rw [show (Blob.mk pcm (s2l ("audio/L16;rate=24000"))).mime_type =
        s2l ("audio/L16;rate=24000") from rfl]
      decide
    have e2 := hE gE fn (binChunkOf pcm (s2l ("audio/L16;rate=24000"))) []
      ⟨[⟨some ⟨pcm, s2l ("audio/L16;rate=24000")⟩⟩]⟩ []
      ⟨some ⟨pcm, s2l ("audio/L16;rate=24000")⟩⟩ []
      ⟨pcm, s2l ("audio/L16;rate=24000")⟩ buf rfl rfl rfl hmime0 hbuf
    rw [e1, e2]
    rw [show runStream gE fn ([] : List Chunk) = some ([], []) from rfl]
    have hext : extFor gE ((Blob.mk pcm (s2l ("audio/L16;rate=24000"))).mime_type) =
        s2l (".wav") := by
      rw [show (Blob.mk pcm (s2l ("audio/L16;rate=24000"))).mime_type =
        s2l ("audio/L16;rate=24000") from rfl]
      unfold extFor
      rw [hgE]
      rfl
    rw [hext]
    rfl

/-- C9 witness: the concrete two-chunk clause instantiated with payload
`[7]`, whose converted bytes equal the spec header followed by the
payload. -/
theorem c9_witness :
    runStream (fun _ => none) (s2l ("out")) [textChunkOf (s2l ("hello")),
      binChunkOf [7] (s2l ("audio/L16;rate=24000"))] =
      some ([(s2l ("out") ++ s2l (".wav"), wavHeaderSpec 24000 16 1 ++ [7])],
        [s2l ("hello")]) :=
  c9_stream_dispatch.2.2.2.2.2 (fun _ => none) (s2l ("out")) [7]
    (wavHeaderSpec 24000 16 1 ++ [7]) rfl (by decide)

theorem runStream_writes_filterMap (gE : Str → Option Str) (fn : Str)
    (chunks : List Chunk) (ws : List (Str × List Nat)) (ps : List Str)
    (hrun : runStream gE fn chunks = some (ws, ps)) :
    ws = chunks.filterMap (writeOf gE fn) := by
  induction chunks generalizing ws ps with
  | nil =>
    simp only [runStream] at hrun
    obtain ⟨h1, _⟩ := Prod.mk.injEq .. ▸ Option.some_inj.mp hrun
    simp [← h1]
  | cons c rest ih =>
    rw [runStream_cons] at hrun
    cases hpc : processChunk gE fn c with
    | none => rw [hpc] at hrun; simp at hrun
    | some wp =>
      rcases wp with ⟨w, p⟩
      rw [hpc] at hrun
      cases hr : runStream gE fn rest with
      | none => rw [hr] at hrun; simp at hrun
      | some r =>
        rcases r with ⟨ws', ps'⟩
        rw [hr] at hrun
        simp only [Option.some_inj, Prod.mk.injEq] at hrun
        obtain ⟨hws, _⟩ := hrun
        have hwof : writeOf gE fn c = w := by
          unfold writeOf
          rw [hpc]
        rw [List.filterMap_cons, hwof]
        cases w with
        | none =>
          rw [← hws, ih ws' ps' hr]
          simp [Option.toList]
        | some a =>
          rw [← hws, ih ws' ps' hr]
          simp [Option.toList]

theorem writeOf_path (gE : Str → Option Str) (fn : Str) (c : Chunk)
    (w : Str × List Nat) (h : writeOf gE fn c = some w) :
    ∃ b, chunkBlob c = some b ∧ w.1 = fn ++ extFor gE b.mime_type := by
  rcases c with ⟨cands, txt⟩
  cases cands with
  | nil => simp [writeOf, processChunk] at h
  | cons cand ctl =>
    rcases cand with ⟨parts⟩
    cases parts with
    | nil => simp [writeOf, processChunk] at h
    | cons part ptl =>
      rcases part with ⟨idata⟩
      cases idata with
      | none => simp [writeOf, processChunk] at h
      | some b =>
        refine ⟨b, by simp [chunkBlob], ?_⟩
        have hbw : blobWrite gE fn b = some w := by
          cases hb : blobWrite gE fn b with
          | none =>
            exfalso
            simp [writeOf, processChunk, hb] at h
          | some w' =>
            simp [writeOf, processChunk, hb] at h
            rw [h]
        unfold blobWrite at hbw
        by_cases hm : b.mime_type = s2l ("audio/wav")
        · rw [if_pos hm] at hbw
          simp only [Option.some_inj] at hbw
          rw [← hbw]
        · rw [if_neg hm] at hbw
          cases hc : convert_to_wav b.data b.mime_type with
          | none => rw [hc] at hbw; simp at hbw
          | some db =>
            rw [hc] at hbw
            simp only [Option.some_inj] at hbw
            rw [← hbw]

theorem getLast?_cons_pair (l : List (Str × List Nat)) (a : Str × List Nat) :
    (a :: l).getLast? = some (l.getLastD a) := by
  induction l generalizing a with
  | nil => rfl
  | cons x xs ih =>
    rw [List.getLastD_cons]
    rw [← ih x]
    rfl

theorem getLastD_const_key (q : Str) (l : List (Str × List Nat))
    (a : Str × List Nat) (hl : ∀ x ∈ l, x.1 = q) (ha : a.1 = q) :
    l.getLastD a = (q, (l.map Prod.snd).getLastD a.2) := by
  induction l generalizing a with
  | nil =>
    simp only [List.getLastD, List.map_nil]
    rw [← ha]
  | cons x xs ih =>
    rw [List.getLastD_cons, List.map_cons, List.getLastD_cons]
    exact ih x (fun y hy => hl y (List.mem_cons_of_mem _ hy))
      (hl x (List.mem_cons_self _ _))

theorem foldl_dSet_const (q : Str) (ws : List (Str × List Nat)) (v0 : List Nat)
    (h : ∀ w ∈ ws, w.1 = q) :
    ws.foldl (fun fs w => dSet fs w.1 w.2) [(q, v0)] =
      [(q, (ws.map Prod.snd).getLastD v0)] := by
  induction ws generalizing v0 with
  | nil => rfl
  | cons w rest ih =>
    have hw : w.1 = q := h w (List.mem_cons_self _ _)
    simp only [List.foldl_cons]
    rw [show dSet [(q, v0)] w.1 w.2 = [(q, w.2)] from by
      rw [hw]; unfold dSet; rw [if_pos rfl]]
    rw [ih w.2 (fun y hy => h y (List.mem_cons_of_mem _ hy))]
    rw [List.map_cons, List.getLastD_cons]

theorem lastWins_const_key (q : Str) (ws : List (Str × List Nat))
    (h : ∀ w ∈ ws, w.1 = q) :
    lastWins ws = [] ∨
    ∃ v, ws.getLast? = some (q, v) ∧ lastWins ws = [(q, v)] := by
  cases ws with
  | nil => exact Or.inl rfl
  | cons w rest =>
    right
    have hw : w.1 = q := h w (List.mem_cons_self _ _)
    have htl : ∀ y ∈ rest, y.1 = q := fun y hy => h y (List.mem_cons_of_mem _ hy)
    refine ⟨(rest.map Prod.snd).getLastD w.2, ?_, ?_⟩
    · rw [getLast?_cons_pair, getLastD_const_key q rest w htl hw]
    · unfold lastWins
      simp only [List.foldl_cons]
      rw [show dSet ([] : List (Str × List Nat)) w.1 w.2 = [(q, w.2)] from by
        rw [hw]
        rfl]
      exact foldl_dSet_const q rest w.2 htl

/-- A fragment of Python's `mimetypes.guess_extension` table: `audio/mpeg`
maps to `.mp3`, other media types are unrecognised. -/
def guessExtM : Str → Option Str :=
  fun m => if m = s2l ("audio/mpeg") then some (s2l (".mp3")) else none

/-- C3 counterexample: with two Binary chunks whose media types guess
different extensions (`audio/mpeg` → `.mp3`, unrecognised → `.wav`), the
streaming loop writes two *different* destination paths, and after the run
two files exist — refuting "every file write targets the same destination
path" and "at most one output file exists". -/
theorem c3_counterexample :
    (runStream guessExtM (s2l ("out"))
        [binChunkOf [1] (s2l ("audio/mpeg")),
          binChunkOf [2] (s2l ("audio/x-unknown"))]).map
      (fun r => r.1.map Prod.fst) = some [s2l ("out.mp3"), s2l ("out.wav")] ∧
    s2l ("out.mp3") ≠ s2l ("out.wav") ∧
    (runStream guessExtM (s2l ("out"))
        [binChunkOf [1] (s2l ("audio/mpeg")),
          binChunkOf [2] (s2l ("audio/x-unknown"))]).map
      (fun r => (lastWins r.1).length) = some 2 :=
  ⟨by decide, by decide, by decide⟩

/-- C3 (amended): every write of a run targets
`file_name ++ extension(chunk's media type)` (default `.wav`); the writes
are exactly the processed Binary chunks in order.  When all Binary chunks
of the run yield one and the same extension `e` — in particular when at
most one Binary chunk occurs or all chunks share a media type — every
write targets the single path `file_name ++ e`, and after the run at most
one file exists, holding the bytes of the most recent write (the processed
payload of the last Binary chunk). -/
theorem c3_single_extension_last_write_wins
    (gE : Str → Option Str) (fn : Str) (chunks : List Chunk)
    (ws : List (Str × List Nat)) (ps : List Str) (e : Str)
    (hrun : runStream gE fn chunks = some (ws, ps))
    (hext : ∀ c ∈ chunks, extOfChunk gE c = none ∨ extOfChunk gE c = some e) :
    ws = chunks.filterMap (writeOf gE fn) ∧
    (∀ w ∈ ws, w.1 = fn ++ e) ∧
    (lastWins ws = [] ∨
      ∃ v, ws.getLast? = some (fn ++ e, v) ∧ lastWins ws = [(fn ++ e, v)]) := by
  have h1 : ws = chunks.filterMap (writeOf gE fn) :=
    runStream_writes_filterMap gE fn chunks ws ps hrun
  have h2 : ∀ w ∈ ws, w.1 = fn ++ e := by
    intro w hw
    rw [h1] at hw
    rcases List.mem_filterMap.mp hw with ⟨c, hc, hwof⟩
    rcases writeOf_path gE fn c w hwof with ⟨b, hblob, hpath⟩
    have hoc : extOfChunk gE c = some (extFor gE b.mime_type) := by
      unfold extOfChunk
      rw [hblob]
      rfl
    rcases hext c hc with hnone | hsome
    · rw [hoc] at hnone
      exact absurd hnone (by simp)
    · rw [hoc] at hsome
      simp only [Option.some_inj] at hsome
      rw [hpath, hsome]
  exact ⟨h1, h2, lastWins_const_key (fn ++ e) ws h2⟩

/-- C3 witness: the single-Binary-chunk run
`[Text("hello"), Binary([7], "audio/L16;rate=24000")]` with no recognised
extension: one write, to `out.wav`, which is the one surviving file. -/
theorem c3_witness :
    ([(s2l ("out") ++ s2l (".wav"), wavHeaderSpec 24000 16 1 ++ [7])] =
      ([textChunkOf (s2l ("hello")),
        binChunkOf [7] (s2l ("audio/L16;rate=24000"))]).filterMap
        (writeOf (fun _ => none) (s2l ("out")))) ∧
    (∀ w ∈ [(s2l ("out") ++ s2l (".wav"), wavHeaderSpec 24000 16 1 ++ [7])],
      w.1 = s2l ("out") ++ s2l (".wav")) ∧
    (lastWins [(s2l ("out") ++ s2l (".wav"), wavHeaderSpec 24000 16 1 ++ [7])] = [] ∨
      ∃ v, ([(s2l ("out") ++ s2l (".wav"),
          wavHeaderSpec 24000 16 1 ++ [7])]).getLast? =
          some (s2l ("out") ++ s2l (".wav"), v) ∧
        lastWins [(s2l ("out") ++ s2l (".wav"), wavHeaderSpec 24000 16 1 ++ [7])] =
          [(s2l ("out") ++ s2l (".wav"), v)]) :=
  c3_single_extension_last_write_wins (fun _ => none) (s2l ("out"))
    [textChunkOf (s2l ("hello")), binChunkOf [7] (s2l ("audio/L16;rate=24000"))]
    [(s2l ("out") ++ s2l (".wav"), wavHeaderSpec 24000 16 1 ++ [7])]
    [s2l ("hello")] (s2l (".wav")) (by decide) (by decide)

/-! ## `generate` (source lines 165–294) and `__main__` (lines 363–375)

The two collaborator calls are oracles in `Env`: `suggest` maps the built
suggestion prompt to the response text consumed by
`select_voices_for_speakers`, and `stream` is the chunk sequence of the
one `generate_content_stream` call of the run.  `scriptFile` is the script
file's content when `os.path.isfile` holds, else `none`.  The interactive
`input()` prompt for a missing path argument is not modelled (`__main__`
always passes the required positional argument), the duplicated
`extract_speakers` call is collapsed (it is pure, and both calls return
the same value), and progress prints are not recorded — the file-not-found
error message is. -/

def quoteChar : Char := Char.ofNat 39

def joinCommaSpace : List Str → Str
  | [] => []
  | [x] => x
  | x :: xs => x ++ ',' :: ' ' :: joinCommaSpace xs

/-- Python `repr` of a list of strings, as interpolated by the f-string. -/
def pyReprStrList (l : List Str) : Str :=
  '[' :: joinCommaSpace (l.map (fun s => quoteChar :: s ++ [quoteChar])) ++ [']']

/-- `pathlib.Path(p).stem` for regular file names: the part of the last
path component before its final dot-suffix. -/
def pathStem (p : Str) : Str :=
  match (pySplitChar '/' p).getLastD [] with
  | [] => []
  | c0 :: rest =>
    if pyContainsChar rest '.' then
      c0 :: ((rest.reverse.dropWhile (fun c => c ≠ '.')).drop 1).reverse
    else c0 :: rest

/-- The `speaker_suggestion_prompt` f-string of
`select_voices_for_speakers`. -/
def buildSuggestionPrompt (male_voices female_voices : List Str)
    (speaker1_name speaker2_name prompt : Str) : Str :=
  s2l ("Analyze this script with two speakers named ") ++
  quoteChar :: speaker1_name ++ quoteChar :: s2l (" and ") ++
  quoteChar :: speaker2_name ++ quoteChar :: s2l (".\n") ++
  s2l ("Suggest the best voice for each of these two speakers based on their character in the script.\n\n") ++
  s2l ("Available male voices: ") ++ pyReprStrList male_voices ++ s2l ("\n") ++
  s2l ("Available female voices: ") ++ pyReprStrList female_voices ++ s2l ("\n\n") ++
  s2l ("Script:\n") ++ prompt ++ s2l ("\n\n") ++
  s2l ("Respond in this exact format:\n") ++
  speaker1_name ++ s2l (": [voice_name]\n") ++
  speaker2_name ++ s2l (": [voice_name]\n\n") ++
  s2l ("Choose voices that sound different from each other and match the personality of each speaker.\n") ++
  s2l ("Select male and female voices according to the script and context, and if the script not distinctly indicates then better you select one male one female voice.")

structure Env where
  apiKey : Option Str
  scriptFile : Option Str
  suggest : Str → Str
  stream : List Chunk
  guessExt : Str → Option Str

structure Trace where
  prints : List Str
  suggestCalls : Nat
  genCalls : Nat
  writes : List (Str × List Nat)
  ok : Bool

/-- `generate`: missing script file prints the error and returns normally;
otherwise extract speakers, derive the output base name, run the voice
selection (one suggestion call) and the streaming loop (one generation
call).  `ok := false` models an uncaught exception. -/
def generate (env : Env) (script_path : Str) (output_file : Option Str) : Trace :=
  match env.scriptFile with
  | none =>
    { prints := [s2l ("❌ File not found: ") ++ script_path],
      suggestCalls := 0, genCalls := 0, writes := [], ok := true }
  | some user_prompt =>
    let sp := extract_speakers user_prompt
    let file_name :=
      match output_file with
      | some o => o
      | none =>
        match sp with
        | (some a, some b) =>
          pyReplaceChar (pyLowerS a) ' ' '_' ++
            '_' :: pyReplaceChar (pyLowerS b) ' ' '_'
        | _ =>
          match pathStem script_path with
          | [] => s2l ("output_audio")
          | sb => sb
    let speaker1 := sp.1.getD (s2l ("Speaker 1"))
    let speaker2 := sp.2.getD (s2l ("Speaker 2"))
    let response := env.suggest (buildSuggestionPrompt
      (maleVoicesOf get_available_voices) (femaleVoicesOf get_available_voices)
      speaker1 speaker2 user_prompt)
    match select_voices_for_speakers get_available_voices speaker1 speaker2
        response with
    | none =>
      { prints := [], suggestCalls := 1, genCalls := 0, writes := [], ok := false }
    | some _speaker_voices =>
      match runStream env.guessExt file_name env.stream with
      | none =>
        { prints := [], suggestCalls := 1, genCalls := 1, writes := [], ok := false }
      | some (ws, ps) =>
        { prints := ps, suggestCalls := 1, genCalls := 1, writes := ws, ok := true }

/-- `if not os.environ.get("GEMINI_API_KEY")` — `None` and the empty
string are both falsy. -/
def apiKeyMissing : Option Str → Bool
  | none => true
  | some s => s.isEmpty

/-- `__main__`: exit 1 when the credential is missing, otherwise run
`generate`; exit code 0 on a normal return, 1 on an uncaught exception. -/
def mainRun (env : Env) (input_file : Str) (output : Option Str) : Nat × Trace :=
  if apiKeyMissing env.apiKey then
    (1, { prints := [s2l ("❌ Error: Gemini API key not found.")],
          suggestCalls := 0, genCalls := 0, writes := [], ok := true })
  else
    ((if (generate env input_file output).ok then 0 else 1),
      generate env input_file output)

/-- An environment with a valid credential whose script file does not
exist. -/
def envNoScript : Env :=
  { apiKey := some (s2l ("k")), scriptFile := none, suggest := fun _ => [],
    stream := [], guessExt := fun _ => none }

/-- C2 counterexample: with a missing script file (and a credential
present), the run makes no suggestion or generation call but the process
terminates with exit code 0, not a non-zero code — `generate` prints the
error and plainly returns, so `__main__` falls through to a normal exit. -/
theorem c2_counterexample :
    (mainRun envNoScript (s2l ("missing.txt")) none).1 = 0 ∧
    (mainRun envNoScript (s2l ("missing.txt")) none).2.suggestCalls = 0 ∧
    (mainRun envNoScript (s2l ("missing.txt")) none).2.genCalls = 0 ∧
    (mainRun envNoScript (s2l ("missing.txt")) none).2.prints =
      [s2l ("❌ File not found: ") ++ s2l ("missing.txt")] :=
  ⟨rfl, rfl, rfl, rfl⟩

/-- C2 (amended): when the input script file does not exist (and the
credential check passed), the process reports the error and terminates
without any call to the suggestion or generation service — but with exit
code 0, not a non-zero code. -/
theorem c2_missing_file_exits_zero_no_calls
    (env : Env) (p : Str) (out : Option Str) (key : Str)
    (hkey : env.apiKey = some key) (hne : key ≠ [])
    (hfile : env.scriptFile = none) :
    (mainRun env p out).1 = 0 ∧
    (mainRun env p out).2.suggestCalls = 0 ∧
    (mainRun env p out).2.genCalls = 0 ∧
    (mainRun env p out).2.prints = [s2l ("❌ File not found: ") ++ p] := by
  have hgen : generate env p out =
      { prints := [s2l ("❌ File not found: ") ++ p], suggestCalls := 0,
        genCalls := 0, writes := [], ok := true } := by
    unfold generate
    rw [hfile]
  have hkm : apiKeyMissing env.apiKey = false := by
    rw [hkey]
    unfold apiKeyMissing
    cases key with
    | nil => exact absurd rfl hne
    | cons c cs => rfl
  unfold mainRun
  rw [hkm]
  simp [hgen]

/-- C2 witness: the amended theorem applied to `envNoScript` and the path
`missing.txt`. -/
theorem c2_witness :
    (mainRun envNoScript (s2l ("missing.txt")) none).1 = 0 ∧
    (mainRun envNoScript (s2l ("missing.txt")) none).2.suggestCalls = 0 ∧
    (mainRun envNoScript (s2l ("missing.txt")) none).2.genCalls = 0 ∧
    (mainRun envNoScript (s2l ("missing.txt")) none).2.prints =
      [s2l ("❌ File not found: ") ++ s2l ("missing.txt")] :=
  c2_missing_file_exits_zero_no_calls envNoScript (s2l ("missing.txt")) none
    (s2l ("k")) rfl (by decide) rfl
